import Mathlib

/-!
Shallow embedding of the pantheon-contracts revenue-share contracts
(`contracts/splitter/src/contract.rs`, `contracts/factory/src/contract.rs`,
`src/contract.rs`) and proofs about their share registry, admin gating,
pagination, child deployment and native-token distribution.

Collaborators (the address-validation service, the deterministic address
derivation, the host wasm queries) are modelled as explicit function
parameters.  The host ledger executes each request atomically: a request
that returns an error commits no state change (spec §5); this is encoded by
the `Except` result type of every entry point together with `nextState`,
which maps an error result back to the pre-request state.

`cosmwasm_std::Decimal` is a non-negative fixed-point number with 18
fractional digits; it is modelled by its count of `10 ^ -18` atomics as a
natural number, so `Decimal.one = 10 ^ 18` and addition / comparison are
those of `Nat`.  `Uint128 * Decimal` truncates, i.e. computes
`b * atomics / 10 ^ 18` with floor division.
-/

/-- Bech32 account addresses are ASCII strings; the store orders keys by raw
bytes, which for ASCII coincides with the lexicographic order on `String`. -/
abbrev Addr := String

/-- Raw binary payloads (`cosmwasm_std::Binary`) as byte lists. -/
abbrev Binary := List Nat

structure Coin where
  denom : String
  amount : Nat
deriving DecidableEq

/-- `cosmwasm_std::Decimal` as its atomic count (18 fractional digits). -/
abbrev Decimal := Nat

/-- `Decimal::one()`: `10 ^ 18` atomics. -/
def Decimal.one : Decimal := 10 ^ 18

/-- A share: one recipient and its fixed-point percentage (in `[0, 1]`). -/
structure Share where
  recipient : String
  percentage : Decimal
deriving DecidableEq

/-- The singleton `Config` item: admin address plus the mutability flag. -/
structure Config where
  admin : Addr
  mutable : Bool
deriving DecidableEq

/-- `ContractError` from `error.rs`, plus `std` for wrapped low-level
(`cosmwasm_std::StdError`) failures; `invalidRecipient` is the address
validation failure surfaced by `deps.api.addr_validate` (spec §7). -/
inductive ContractError where
  | unauthorized
  | contractNotMutable
  | percentageLimitExceeded
  | percentageLimitNotMet
  | invalidRecipient
  | instantiateError
  | std (msg : String)
deriving DecidableEq

structure MessageInfo where
  sender : Addr
  funds : List Coin
deriving DecidableEq

/-- Outbound effects produced by the contracts.  `updateContractMetadata` is
`ArchwayMsg::UpdateContractMetadata` (the factory's binding version has no
`contract_address` field, rendered here as `none`);
`wasmExecuteUpdateRewardMetadata` is the `WasmMsg::Execute` carrying the
serialized `UpdateRewardMetadata` payload; `subInstantiateReplyOnSuccess` is
the `SubMsg::reply_on_success(WasmMsg::Instantiate .., id)` submessage. -/
inductive Msg where
  | updateContractMetadata (contract_address owner_address rewards_address : Option Addr)
  | withdrawRewards (records_limit : Option Nat) (record_ids : List Nat)
  | bankSend (to_address : Addr) (amount : Nat) (denom : String)
  | wasmInstantiate2 (admin : Option Addr) (code_id : Nat) (label : String)
      (payload : Binary) (funds : List Coin) (salt : Binary)
  | wasmExecuteUpdateRewardMetadata (contract_addr : Addr)
      (owner_address rewards_address : Option Addr) (funds : List Coin)
  | wasmUpdateAdmin (contract_addr : Addr) (admin : Addr)
  | subInstantiateReplyOnSuccess (admin : Option Addr) (code_id : Nat) (payload : Binary)
      (funds : List Coin) (label : String) (reply_id : Nat)
deriving DecidableEq

structure Response where
  messages : List Msg
  attributes : List (String × String)
deriving DecidableEq

def Response.empty : Response := ⟨[], []⟩

/-- The `SHARES : Map<Addr, Share>` store: an association list kept strictly
sorted by key, matching the store's ascending raw-key iteration order. -/
abbrev SharesMap := List (Addr × Share)

/-- The persistent state of one contract instance: `CONFIG` and `SHARES`. -/
structure State where
  config : Config
  shares : SharesMap
deriving DecidableEq

/-- The address-validation collaborator (`deps.api.addr_validate`): `none`
models a validation error. -/
abbrev Api := String → Option Addr

deriving instance DecidableEq for Except

/-- Lexicographic order on character lists compared by code point; for the
ASCII bech32 addresses this is exactly the store's raw-byte key order. -/
def charsLt : List Char → List Char → Bool
  | [], [] => false
  | [], _ :: _ => true
  | _ :: _, [] => false
  | a :: as, b :: bs =>
    if a.toNat < b.toNat then true
    else if b.toNat < a.toNat then false
    else charsLt as bs

/-- The store's ascending raw-byte order on address keys. -/
def addrLt (a b : Addr) : Bool := charsLt a.data b.data

/-- `SHARES.save deps.storage k v`: sorted insert-or-replace in key order. -/
def sharesSave : SharesMap → Addr → Share → SharesMap
  | [], k, v => [(k, v)]
  | (k', v') :: rest, k, v =>
    if addrLt k k' then (k, v) :: (k', v') :: rest
    else if k = k' then (k, v) :: rest
    else (k', v') :: sharesSave rest k v

/-- `SHARES.clear deps.storage`. -/
def sharesClear : SharesMap := []

/-- Sum of the stored percentages over a share store. -/
def sumShares (m : SharesMap) : Decimal :=
  (m.map (fun p => p.2.percentage)).sum

def keysOf (m : SharesMap) : List Addr := m.map (fun p => p.1)

/-- Store well-formedness: keys strictly ascending in raw-byte order. -/
def SortedShares (m : SharesMap) : Prop :=
  m.Pairwise (fun p q => addrLt p.1 q.1 = true)

/-- Store well-formedness: each stored share's `recipient` equals its key. -/
def KeysMatch (m : SharesMap) : Prop :=
  ∀ p ∈ m, p.2.recipient = p.1

/-- `addr_validate` returns its input unchanged when it succeeds (it
validates and normalizes; a normalized address maps to itself). -/
def ValidIdApi (api : Api) : Prop :=
  ∀ s a, api s = some a → a = s

/-- The fold `shares.iter().fold(Decimal::zero(), |acc, share| acc + share.percentage)`. -/
def percentageSum (shares : List Share) : Decimal :=
  shares.foldl (fun acc share => acc + share.percentage) 0

/-- `check_share_percentages` (identical in all three contract files):
sum above `Decimal::one()` is `PercentageLimitExceeded`, below it is
`PercentageLimitNotMet`, exactly `one` passes. -/
def check_share_percentages (shares : List Share) : Except ContractError Unit :=
  if Decimal.one < percentageSum shares then .error .percentageLimitExceeded
  else if percentageSum shares < Decimal.one then .error .percentageLimitNotMet
  else .ok ()

/-- The share-installation loop shared by `instantiate` and
`execute_update_shares`: validate each recipient, then save the share under
the validated address.  A validation failure aborts the request. -/
def saveShares (api : Api) : SharesMap → List Share → Except ContractError SharesMap
  | m, [] => .ok m
  | m, share :: rest =>
    match api share.recipient with
    | none => .error .invalidRecipient
    | some recipient => saveShares api (sharesSave m recipient share) rest

/-- `execute_update_shares`, textually identical in
`contracts/splitter/src/contract.rs`, `contracts/factory/src/contract.rs`
and `src/contract.rs`: mutability check, then admin check, then the
percentage check, then clear-and-reinstall of the whole share set. -/
def execute_update_shares (api : Api) (st : State) (info : MessageInfo)
    (shares : List Share) : Except ContractError (State × Response) :=
  let config := st.config
  if config.mutable = false then .error .contractNotMutable
  else if info.sender ≠ config.admin then .error .unauthorized
  else
    match check_share_percentages shares with
    | .error e => .error e
    | .ok () =>
      match saveShares api sharesClear shares with
      | .error e => .error e
      | .ok m => .ok ({ st with shares := m }, Response.empty)

/-- `execute_lock_contract` (identical in all three files): admin check, then
`config.mutable = false` saved unconditionally. -/
def execute_lock_contract (st : State) (info : MessageInfo) :
    Except ContractError (State × Response) :=
  if info.sender ≠ st.config.admin then .error .unauthorized
  else .ok ({ st with config := { st.config with mutable := false } }, Response.empty)

/-- `query_shares` (identical in all three files): default page size 10,
exclusive-start bound from the validated cursor, ascending iteration,
`take limit`.  The cursor is validated with `.unwrap()`: a validation
failure panics, modelled as `none` (the function is not total there). -/
def query_shares (api : Api) (shares : SharesMap) (start_after : Option String)
    (limit : Option Nat) : Option (List Share) :=
  let lim := limit.getD 10
  match start_after with
  | none => some ((shares.take lim).map (fun p => p.2))
  | some s =>
    match api s with
    | none => none
    | some recipient =>
      some (((shares.filter (fun p => addrLt recipient p.1)).take lim).map (fun p => p.2))

/-- The observable state after a request: the host ledger reverts every
state write of a request that returns an error (spec §5). -/
def nextState (st : State) (r : Except ContractError (State × Response)) : State :=
  match r with
  | .ok (st', _) => st'
  | .error _ => st

structure InstantiateMsg where
  mutable : Bool
  shares : List Share
deriving DecidableEq

namespace Splitter

/-- `INSTANTIATE_REPLY_ID` in `contracts/splitter/src/contract.rs`. -/
def INSTANTIATE_REPLY_ID : Nat := 1

/-- `instantiate` in `contracts/splitter/src/contract.rs`: saves
`Config { admin := sender, mutable := msg.mutable }`, checks the percentage
sum, installs the validated shares into the fresh (empty) store, and answers
with only an `admin` attribute — no outbound message. -/
def instantiate (api : Api) (info : MessageInfo) (msg : InstantiateMsg) :
    Except ContractError (State × Response) :=
  let config : Config := { admin := info.sender, mutable := msg.mutable }
  match check_share_percentages msg.shares with
  | .error e => .error e
  | .ok () =>
    match saveShares api sharesClear msg.shares with
    | .error e => .error e
    | .ok m =>
      .ok ({ config := config, shares := m },
           { messages := [], attributes := [("admin", info.sender)] })

/-- `execute_add_custom_contract` in `contracts/splitter/src/contract.rs`:
mutability check, admin check, then a single
`SubMsg::reply_on_success(WasmMsg::Instantiate .., INSTANTIATE_REPLY_ID)`
with the deploying contract as the child's admin.  No state change. -/
def execute_add_custom_contract (st : State) (env_contract : Addr)
    (info : MessageInfo) (code_id : Nat) (msg : Binary) :
    Except ContractError (State × Response) :=
  if st.config.mutable = false then .error .contractNotMutable
  else if info.sender ≠ st.config.admin then .error .unauthorized
  else
    .ok (st,
      { messages := [Msg.subInstantiateReplyOnSuccess (some env_contract) code_id msg
          info.funds "Pantheon Custom Contract" INSTANTIATE_REPLY_ID],
        attributes := [] })

/-- `execute_update_custom_contract_reward_metadata` in
`contracts/splitter/src/contract.rs`: mutability check, admin check, then a
single `ArchwayMsg::UpdateContractMetadata` with the supplied fields. -/
def execute_update_custom_contract_reward_metadata (st : State)
    (info : MessageInfo) (address : String)
    (owner_address rewards_address : Option String) :
    Except ContractError (State × Response) :=
  if st.config.mutable = false then .error .contractNotMutable
  else if info.sender ≠ st.config.admin then .error .unauthorized
  else
    .ok (st,
      { messages := [Msg.updateContractMetadata (some address) owner_address rewards_address],
        attributes := [] })

/-- `execute_withdraw_rewards` in `contracts/splitter/src/contract.rs`:
admin check, then `ArchwayMsg::WithdrawRewards { records_limit: Some(0),
record_ids: vec![] }`.  No state change. -/
def execute_withdraw_rewards (st : State) (info : MessageInfo) :
    Except ContractError (State × Response) :=
  if info.sender ≠ st.config.admin then .error .unauthorized
  else
    .ok (st, { messages := [Msg.withdrawRewards (some 0) []], attributes := [] })

/-- `execute_distribute_native_tokens` in `contracts/splitter/src/contract.rs`:
admin check, read the native `"aconst"` balance (passed in as the querier's
answer), enumerate the whole share store in ascending key order, and emit
one `BankMsg::Send` per share with amount
`balance.amount.mul(share.percentage)`, i.e. `balance * atomics / 10 ^ 18`
with floor division.  No state change. -/
def execute_distribute_native_tokens (st : State) (info : MessageInfo)
    (balance : Nat) : Except ContractError (State × Response) :=
  if info.sender ≠ st.config.admin then .error .unauthorized
  else
    .ok (st,
      { messages := st.shares.map (fun p =>
          Msg.bankSend p.2.recipient (balance * p.2.percentage / Decimal.one) "aconst"),
        attributes := [] })

/-- The reply payload as seen through `parse_reply_instantiate_data`: `ok`
carries the instantiated child's address extracted from a successful
instantiate reply; `error` is the stringified parse / sub-call failure. -/
structure ReplyMsg where
  id : Nat
  result : Except String Addr
deriving DecidableEq

/-- `reply` in `contracts/splitter/src/contract.rs`: loads config; a
correlation id other than `INSTANTIATE_REPLY_ID` is `InstantiateError`; a
successful payload yields `UpdateContractMetadata` (owner and rewards = the
deploying contract itself) plus `WasmMsg::UpdateAdmin` (admin =
`config.admin`); a failed payload is wrapped as `StdError::GenericErr`. -/
def reply (st : State) (env_contract : Addr) (msg : ReplyMsg) :
    Except ContractError (State × Response) :=
  let config := st.config
  if msg.id ≠ INSTANTIATE_REPLY_ID then .error .instantiateError
  else
    match msg.result with
    | .ok contract_address =>
      .ok (st,
        { messages := [
            Msg.updateContractMetadata (some contract_address) (some env_contract)
              (some env_contract),
            Msg.wasmUpdateAdmin contract_address config.admin],
          attributes := [] })
    | .error err => .error (.std err)

end Splitter

namespace RewardManager

/-- `instantiate` in `src/contract.rs`, textually identical to the
splitter's: persists config and shares, emits no message. -/
def instantiate : Api → MessageInfo → InstantiateMsg →
    Except ContractError (State × Response) :=
  Splitter.instantiate

end RewardManager

namespace Factory

/-- `instantiate` in `contracts/factory/src/contract.rs`: like the
splitter's, but additionally emits `ArchwayMsg::UpdateContractMetadata`
naming the sender as both `owner_address` and `rewards_address` (this
binding version has no `contract_address` field, rendered `none`). -/
def instantiate (api : Api) (info : MessageInfo) (msg : InstantiateMsg) :
    Except ContractError (State × Response) :=
  let config : Config := { admin := info.sender, mutable := msg.mutable }
  match check_share_percentages msg.shares with
  | .error e => .error e
  | .ok () =>
    match saveShares api sharesClear msg.shares with
    | .error e => .error e
    | .ok m =>
      .ok ({ config := config, shares := m },
           { messages := [Msg.updateContractMetadata none (some info.sender) (some info.sender)],
             attributes := [("admin", info.sender)] })

end Factory

/-- The host-side collaborators used by the factory's deterministic child
deployment: address canonicalization / humanization, the wasm contract-info
and code-info queries, and `cosmwasm_std::instantiate2_address`, the pure
deterministic derivation `f(checksum, creator, salt)`.  `none` models a
failing call (each is fallible in the source). -/
structure WasmHost where
  addr_canonicalize : Addr → Option Binary
  contract_code_id : Addr → Option Nat
  code_checksum : Nat → Option Binary
  instantiate2_address : Binary → Binary → Binary → Option Binary
  addr_humanize : Binary → Option Addr

namespace Factory

/-- `execute_add_custom_contract` in `contracts/factory/src/contract.rs`:
mutability check, admin check; canonicalize the factory's own address as
creator, look up its own code id and checksum, use the init payload bytes
verbatim as salt, derive the child address with `instantiate2_address` and
humanize it; then emit, in order, `WasmMsg::Instantiate2` (admin = the
factory), `WasmMsg::Execute UpdateRewardMetadata` (owner and rewards = the
factory) and `WasmMsg::UpdateAdmin` (admin = the original caller).  Any
failing host call aborts the request with a wrapped error and no effect. -/
def execute_add_custom_contract (host : WasmHost) (st : State)
    (env_contract : Addr) (info : MessageInfo) (code_id : Nat) (msg : Binary) :
    Except ContractError (State × Response) :=
  if st.config.mutable = false then .error .contractNotMutable
  else if info.sender ≠ st.config.admin then .error .unauthorized
  else
    match host.addr_canonicalize env_contract with
    | none => .error (.std "addr_canonicalize failed")
    | some creator =>
      match host.contract_code_id env_contract with
      | none => .error (.std "query_wasm_contract_info failed")
      | some contract_code_id =>
        match host.code_checksum contract_code_id with
        | none => .error (.std "query_wasm_code_info failed")
        | some checksum =>
          let salt := msg
          match host.instantiate2_address checksum creator salt with
          | none => .error (.std "instantiate2_address failed")
          | some canonical =>
            match host.addr_humanize canonical with
            | none => .error (.std "addr_humanize failed")
            | some address =>
              .ok (st,
                { messages := [
                    Msg.wasmInstantiate2 (some env_contract) code_id "" msg info.funds salt,
                    Msg.wasmExecuteUpdateRewardMetadata address (some env_contract)
                      (some env_contract) [],
                    Msg.wasmUpdateAdmin address info.sender],
                  attributes := [] })

end Factory

theorem percentageSum_from (L : List Share) (a : Decimal) :
    L.foldl (fun acc share => acc + share.percentage) a = a + percentageSum L := by
  induction L generalizing a with
  | nil => simp [percentageSum]
  | cons sh rest ih =>
    show rest.foldl _ (a + sh.percentage) = _
    rw [ih]
    show a + sh.percentage + percentageSum rest = a + percentageSum (sh :: rest)
    show _ = a + rest.foldl _ (0 + sh.percentage)
    rw [ih]
    ring

theorem percentageSum_cons (sh : Share) (L : List Share) :
    percentageSum (sh :: L) = sh.percentage + percentageSum L := by
  show L.foldl _ (0 + sh.percentage) = _
  rw [percentageSum_from]
  ring

theorem percentageSum_eq_sum_map (L : List Share) :
    percentageSum L = (L.map (fun sh => sh.percentage)).sum := by
  induction L with
  | nil => rfl
  | cons sh rest ih => rw [percentageSum_cons, List.map_cons, List.sum_cons, ih]

theorem check_ok_iff (L : List Share) :
    check_share_percentages L = .ok () ↔ percentageSum L = Decimal.one := by
  unfold check_share_percentages
  split <;> rename_i h1
  · simp only [reduceCtorEq, false_iff]
    exact Nat.ne_of_gt h1
  · split <;> rename_i h2
    · simp only [reduceCtorEq, false_iff]
      exact Nat.ne_of_lt h2
    · simp only [true_iff]
      exact Nat.le_antisymm (Nat.le_of_not_lt h1) (Nat.le_of_not_lt h2)

theorem check_exceeded {L : List Share} (h : Decimal.one < percentageSum L) :
    check_share_percentages L = .error .percentageLimitExceeded := by
  unfold check_share_percentages
  rw [if_pos h]

theorem check_not_met {L : List Share} (h : percentageSum L < Decimal.one) :
    check_share_percentages L = .error .percentageLimitNotMet := by
  unfold check_share_percentages
  rw [if_neg (Nat.lt_asymm h), if_pos h]

theorem saveShares_ok_of_valid (api : Api) (L : List Share) (m : SharesMap)
    (h : ∀ sh ∈ L, (api sh.recipient).isSome) :
    ∃ m', saveShares api m L = .ok m' := by
  induction L generalizing m with
  | nil => exact ⟨m, rfl⟩
  | cons sh rest ih =>
    have hsh := h sh (by simp)
    cases hval : api sh.recipient with
    | none => rw [hval] at hsh; simp [Option.isSome] at hsh
    | some r =>
      have ⟨m', hm'⟩ := ih (sharesSave m r sh) (fun x hx => h x (by simp [hx]))
      exact ⟨m', by rw [saveShares, hval]; exact hm'⟩

theorem saveShares_error_eq (api : Api) (L : List Share) (m : SharesMap)
    (e : ContractError) (h : saveShares api m L = .error e) :
    e = .invalidRecipient := by
  induction L generalizing m with
  | nil => simp [saveShares] at h
  | cons sh rest ih =>
    rw [saveShares] at h
    cases hval : api sh.recipient with
    | none => rw [hval] at h; cases h; rfl
    | some r => rw [hval] at h; exact ih _ h

theorem saveShares_invalid (api : Api) (L : List Share) (m : SharesMap)
    (h : ∃ sh ∈ L, api sh.recipient = none) :
    saveShares api m L = .error .invalidRecipient := by
  induction L generalizing m with
  | nil => simp at h
  | cons sh rest ih =>
    rw [saveShares]
    cases hval : api sh.recipient with
    | none => rfl
    | some r =>
      apply ih
      rcases h with ⟨x, hx, hnone⟩
      rcases List.mem_cons.1 hx with rfl | hmem
      · rw [hval] at hnone; cases hnone
      · exact ⟨x, hmem, hnone⟩

theorem execute_update_shares_eq (api : Api) (st : State) (info : MessageInfo)
    (L : List Share) (hmut : st.config.mutable = true)
    (hadm : info.sender = st.config.admin) :
    execute_update_shares api st info L =
      match check_share_percentages L with
      | .error e => .error e
      | .ok () =>
        match saveShares api sharesClear L with
        | .error e => .error e
        | .ok m => .ok ({ st with shares := m }, Response.empty) := by
  simp [execute_update_shares, hmut, hadm]

example : check_share_percentages [⟨"a", Decimal.one⟩] = .ok () := by decide

example : check_share_percentages [⟨"a", 5 * 10 ^ 17⟩] = .error .percentageLimitNotMet := by
  decide

example : check_share_percentages [⟨"a", Decimal.one⟩, ⟨"b", 1⟩] =
    .error .percentageLimitExceeded := by decide

theorem update_shares_exceeded (api : Api) (st : State) (info : MessageInfo)
    (L : List Share) (hmut : st.config.mutable = true)
    (hadm : info.sender = st.config.admin)
    (h : Decimal.one < percentageSum L) :
    execute_update_shares api st info L = .error .percentageLimitExceeded := by
  rw [execute_update_shares_eq api st info L hmut hadm, check_exceeded h]

theorem update_shares_not_met (api : Api) (st : State) (info : MessageInfo)
    (L : List Share) (hmut : st.config.mutable = true)
    (hadm : info.sender = st.config.admin)
    (h : percentageSum L < Decimal.one) :
    execute_update_shares api st info L = .error .percentageLimitNotMet := by
  rw [execute_update_shares_eq api st info L hmut hadm, check_not_met h]

theorem update_shares_ok_iff (api : Api) (st : State) (info : MessageInfo)
    (L : List Share) (hmut : st.config.mutable = true)
    (hadm : info.sender = st.config.admin)
    (hvalid : ∀ sh ∈ L, (api sh.recipient).isSome) :
    (∃ out, execute_update_shares api st info L = .ok out) ↔
      percentageSum L = Decimal.one := by
  rw [execute_update_shares_eq api st info L hmut hadm]
  constructor
  · rintro ⟨out, hout⟩
    cases hchk : check_share_percentages L with
    | error e => rw [hchk] at hout; cases hout
    | ok u => cases u; exact (check_ok_iff L).1 hchk
  · intro hsum
    rw [(check_ok_iff L).2 hsum]
    obtain ⟨m', hm'⟩ := saveShares_ok_of_valid api L sharesClear hvalid
    rw [hm']
    exact ⟨_, rfl⟩

theorem Splitter.instantiate_ok_iff (api : Api) (info : MessageInfo)
    (msg : InstantiateMsg)
    (hvalid : ∀ sh ∈ msg.shares, (api sh.recipient).isSome) :
    (∃ out, Splitter.instantiate api info msg = .ok out) ↔
      percentageSum msg.shares = Decimal.one := by
  unfold Splitter.instantiate
  constructor
  · rintro ⟨out, hout⟩
    cases hchk : check_share_percentages msg.shares with
    | error e => rw [hchk] at hout; cases hout
    | ok u => cases u; exact (check_ok_iff msg.shares).1 hchk
  · intro hsum
    rw [(check_ok_iff msg.shares).2 hsum]
    obtain ⟨m', hm'⟩ := saveShares_ok_of_valid api msg.shares sharesClear hvalid
    rw [hm']
    exact ⟨_, rfl⟩

/-- C1: for every share list `L`, `check_share_percentages` (used by both
`execute_update_shares` and instantiate-time share installation) succeeds
iff the percentages of `L` sum to exactly `Decimal.one`; a larger sum fails
with `PercentageLimitExceeded`, a smaller one with `PercentageLimitNotMet`;
and under the operations' other preconditions (mutable contract, admin
caller, validating recipients) `execute_update_shares` and
`Splitter.instantiate` succeed exactly when the sum is `Decimal.one`,
propagating the two percentage errors otherwise. -/
theorem percentage_check_characterization (L : List Share) :
    (check_share_percentages L = .ok () ↔ percentageSum L = Decimal.one) ∧
    (Decimal.one < percentageSum L →
      check_share_percentages L = .error .percentageLimitExceeded) ∧
    (percentageSum L < Decimal.one →
      check_share_percentages L = .error .percentageLimitNotMet) ∧
    (∀ (api : Api) (st : State) (info : MessageInfo),
      st.config.mutable = true → info.sender = st.config.admin →
      (∀ sh ∈ L, (api sh.recipient).isSome) →
      (((∃ out, execute_update_shares api st info L = .ok out) ↔
          percentageSum L = Decimal.one) ∧
        (Decimal.one < percentageSum L →
          execute_update_shares api st info L = .error .percentageLimitExceeded) ∧
        (percentageSum L < Decimal.one →
          execute_update_shares api st info L = .error .percentageLimitNotMet))) ∧
    (∀ (api : Api) (info : MessageInfo) (mflag : Bool),
      (∀ sh ∈ L, (api sh.recipient).isSome) →
      ((∃ out, Splitter.instantiate api info ⟨mflag, L⟩ = .ok out) ↔
        percentageSum L = Decimal.one)) := by
  refine ⟨check_ok_iff L, check_exceeded, check_not_met, ?_, ?_⟩
  · intro api st info hmut hadm hvalid
    exact ⟨update_shares_ok_iff api st info L hmut hadm hvalid,
      update_shares_exceeded api st info L hmut hadm,
      update_shares_not_met api st info L hmut hadm⟩
  · intro api info mflag hvalid
    exact Splitter.instantiate_ok_iff api info ⟨mflag, L⟩ hvalid

/-- Witness for C1: a list summing to exactly one passes the check and makes
`execute_update_shares` succeed; adding one atomic above one fails with
`PercentageLimitExceeded`. -/
theorem percentage_check_characterization_witness :
    check_share_percentages [⟨"bob", Decimal.one⟩] = .ok () ∧
    check_share_percentages [⟨"bob", Decimal.one⟩, ⟨"carol", 1⟩] =
      .error .percentageLimitExceeded ∧
    (∃ out, execute_update_shares (fun s => some s) ⟨⟨"alice", true⟩, []⟩
      ⟨"alice", []⟩ [⟨"bob", Decimal.one⟩] = .ok out) := by
  refine ⟨?_, ?_, ?_⟩
  · exact (percentage_check_characterization [⟨"bob", Decimal.one⟩]).1.mpr (by decide)
  · exact (percentage_check_characterization
      [⟨"bob", Decimal.one⟩, ⟨"carol", 1⟩]).2.1 (by decide)
  · exact ((percentage_check_characterization [⟨"bob", Decimal.one⟩]).2.2.2.1
      (fun s => some s) ⟨⟨"alice", true⟩, []⟩ ⟨"alice", []⟩ rfl rfl
      (fun sh _ => rfl)).1.mpr (by decide)

/-- A concrete validation collaborator accepting every address. -/
def apiId : Api := fun s => some s

/-- A concrete validation collaborator rejecting exactly the string "bad". -/
def apiReject : Api := fun s => if s = "bad" then none else some s

/-- C3: an `execute_update_shares` request that fails with any error leaves
the previously committed share set and the config completely unchanged (the
host ledger reverts the failed request atomically, so neither the clear nor
any partial insert is observable); in particular a list passing the
mutability, admin and percentage checks but containing a recipient rejected
by address validation fails with `InvalidRecipient`. -/
theorem update_shares_error_preserves_state (api : Api) (st : State)
    (info : MessageInfo) (L : List Share) :
    (∀ e, execute_update_shares api st info L = .error e →
      (nextState st (execute_update_shares api st info L)).shares = st.shares ∧
      (nextState st (execute_update_shares api st info L)).config = st.config) ∧
    (st.config.mutable = true → info.sender = st.config.admin →
      percentageSum L = Decimal.one →
      (∃ sh ∈ L, api sh.recipient = none) →
      execute_update_shares api st info L = .error .invalidRecipient) := by
  constructor
  · intro e he
    rw [he]
    exact ⟨rfl, rfl⟩
  · intro hmut hadm hsum hinv
    rw [execute_update_shares_eq api st info L hmut hadm, (check_ok_iff L).2 hsum,
      saveShares_invalid api L sharesClear hinv]

/-- Witness for C3: updating with a list containing the rejected recipient
"bad" fails with `InvalidRecipient` and leaves the stored share for "bob"
and the config in place. -/
theorem update_shares_error_preserves_state_witness :
    execute_update_shares apiReject
      ⟨⟨"alice", true⟩, [("bob", ⟨"bob", Decimal.one⟩)]⟩ ⟨"alice", []⟩
      [⟨"bad", Decimal.one⟩] = .error .invalidRecipient ∧
    (nextState ⟨⟨"alice", true⟩, [("bob", ⟨"bob", Decimal.one⟩)]⟩
      (execute_update_shares apiReject
        ⟨⟨"alice", true⟩, [("bob", ⟨"bob", Decimal.one⟩)]⟩ ⟨"alice", []⟩
        [⟨"bad", Decimal.one⟩])).shares = [("bob", ⟨"bob", Decimal.one⟩)] := by
  have h := update_shares_error_preserves_state apiReject
    ⟨⟨"alice", true⟩, [("bob", ⟨"bob", Decimal.one⟩)]⟩ ⟨"alice", []⟩
    [⟨"bad", Decimal.one⟩]
  have herr := h.2 rfl rfl (by decide) ⟨⟨"bad", Decimal.one⟩, by simp, by decide⟩
  exact ⟨herr, (h.1 _ herr).1⟩

theorem lock_nonadmin (st : State) (info : MessageInfo)
    (h : info.sender ≠ st.config.admin) :
    execute_lock_contract st info = .error .unauthorized := by
  simp [execute_lock_contract, h]

theorem withdraw_nonadmin (st : State) (info : MessageInfo)
    (h : info.sender ≠ st.config.admin) :
    Splitter.execute_withdraw_rewards st info = .error .unauthorized := by
  simp [Splitter.execute_withdraw_rewards, h]

theorem distribute_nonadmin (st : State) (info : MessageInfo) (balance : Nat)
    (h : info.sender ≠ st.config.admin) :
    Splitter.execute_distribute_native_tokens st info balance =
      .error .unauthorized := by
  simp [Splitter.execute_distribute_native_tokens, h]

theorem update_shares_nonadmin (api : Api) (st : State) (info : MessageInfo)
    (L : List Share) (hmut : st.config.mutable = true)
    (h : info.sender ≠ st.config.admin) :
    execute_update_shares api st info L = .error .unauthorized := by
  simp [execute_update_shares, hmut, h]

theorem update_shares_locked (api : Api) (st : State) (info : MessageInfo)
    (L : List Share) (hmut : st.config.mutable = false) :
    execute_update_shares api st info L = .error .contractNotMutable := by
  simp [execute_update_shares, hmut]

theorem add_custom_nonadmin (st : State) (env_contract : Addr)
    (info : MessageInfo) (code_id : Nat) (payload : Binary)
    (hmut : st.config.mutable = true) (h : info.sender ≠ st.config.admin) :
    Splitter.execute_add_custom_contract st env_contract info code_id payload =
      .error .unauthorized := by
  simp [Splitter.execute_add_custom_contract, hmut, h]

theorem add_custom_locked (st : State) (env_contract : Addr)
    (info : MessageInfo) (code_id : Nat) (payload : Binary)
    (hmut : st.config.mutable = false) :
    Splitter.execute_add_custom_contract st env_contract info code_id payload =
      .error .contractNotMutable := by
  simp [Splitter.execute_add_custom_contract, hmut]

/-- C4 counterexample: on a locked contract (`mutable = false`) an
`UpdateShares` call by a non-admin caller ("bob" against admin "alice")
fails with `ContractNotMutable`, not `Unauthorized`: the mutability check
precedes the admin check, so the claim as stated fails. -/
theorem nonadmin_not_always_unauthorized :
    execute_update_shares apiId ⟨⟨"alice", false⟩, []⟩ ⟨"bob", []⟩ [] =
      .error .contractNotMutable ∧
    ("bob" : Addr) ≠ "alice" ∧
    ContractError.contractNotMutable ≠ ContractError.unauthorized := by
  exact ⟨rfl, by decide, by decide⟩

/-- C4 (amended): every mutating operation invoked by a non-admin caller
fails and produces no state change; `LockContract`, `WithdrawRewards` and
`DistributeNativeTokens` fail with `Unauthorized` unconditionally, while
`UpdateShares` and `AddCustomContract` fail with `Unauthorized` when the
contract is mutable and with `ContractNotMutable` when it is locked. -/
theorem nonadmin_mutating_ops_fail (api : Api) (st : State) (info : MessageInfo)
    (L : List Share) (env_contract : Addr) (code_id : Nat) (payload : Binary)
    (balance : Nat) (h : info.sender ≠ st.config.admin) :
    (execute_lock_contract st info = .error .unauthorized ∧
      nextState st (execute_lock_contract st info) = st) ∧
    (Splitter.execute_withdraw_rewards st info = .error .unauthorized ∧
      nextState st (Splitter.execute_withdraw_rewards st info) = st) ∧
    (Splitter.execute_distribute_native_tokens st info balance = .error .unauthorized ∧
      nextState st (Splitter.execute_distribute_native_tokens st info balance) = st) ∧
    (st.config.mutable = true →
      execute_update_shares api st info L = .error .unauthorized ∧
      Splitter.execute_add_custom_contract st env_contract info code_id payload =
        .error .unauthorized) ∧
    (st.config.mutable = false →
      execute_update_shares api st info L = .error .contractNotMutable ∧
      Splitter.execute_add_custom_contract st env_contract info code_id payload =
        .error .contractNotMutable) ∧
    nextState st (execute_update_shares api st info L) = st ∧
    nextState st (Splitter.execute_add_custom_contract st env_contract info code_id
      payload) = st := by
  have hlock := lock_nonadmin st info h
  have hwd := withdraw_nonadmin st info h
  have hdist := distribute_nonadmin st info balance h
  refine ⟨⟨hlock, by rw [hlock]; rfl⟩, ⟨hwd, by rw [hwd]; rfl⟩,
    ⟨hdist, by rw [hdist]; rfl⟩, ?_, ?_, ?_, ?_⟩
  · intro hmut
    exact ⟨update_shares_nonadmin api st info L hmut h,
      add_custom_nonadmin st env_contract info code_id payload hmut h⟩
  · intro hmut
    exact ⟨update_shares_locked api st info L hmut,
      add_custom_locked st env_contract info code_id payload hmut⟩
  · cases hmut : st.config.mutable with
    | false => rw [update_shares_locked api st info L hmut]; rfl
    | true => rw [update_shares_nonadmin api st info L hmut h]; rfl
  · cases hmut : st.config.mutable with
    | false => rw [add_custom_locked st env_contract info code_id payload hmut]; rfl
    | true => rw [add_custom_nonadmin st env_contract info code_id payload hmut h]; rfl

/-- Witness for C4 (amended): caller "bob" against admin "alice" on a
mutable contract: `LockContract` and `UpdateShares` both fail with
`Unauthorized`. -/
theorem nonadmin_mutating_ops_fail_witness :
    execute_lock_contract ⟨⟨"alice", true⟩, []⟩ ⟨"bob", []⟩ =
      .error .unauthorized ∧
    execute_update_shares apiId ⟨⟨"alice", true⟩, []⟩ ⟨"bob", []⟩ [] =
      .error .unauthorized := by
  have h := nonadmin_mutating_ops_fail apiId ⟨⟨"alice", true⟩, []⟩ ⟨"bob", []⟩
    [] "c" 0 [] 0 (by decide)
  exact ⟨h.1.1, (h.2.2.2.1 rfl).1⟩

/-- C7: the splitter `reply` handler fails with `InstantiateError` on any
correlation id other than `INSTANTIATE_REPLY_ID`; on a matching id with a
successful payload it emits exactly the metadata update (owner and rewards
addresses = the deploying contract itself) followed by the admin transfer
to `Config.admin`, with no state change; on a matching id with a failed
payload it fails with the underlying error wrapped as a generic error. -/
theorem reply_handler_spec (st : State) (env_contract : Addr)
    (msg : Splitter.ReplyMsg) :
    (msg.id ≠ Splitter.INSTANTIATE_REPLY_ID →
      Splitter.reply st env_contract msg = .error .instantiateError) ∧
    (msg.id = Splitter.INSTANTIATE_REPLY_ID →
      (∀ addr, msg.result = .ok addr →
        Splitter.reply st env_contract msg = .ok (st,
          ⟨[Msg.updateContractMetadata (some addr) (some env_contract)
              (some env_contract),
            Msg.wasmUpdateAdmin addr st.config.admin], []⟩)) ∧
      (∀ err, msg.result = .error err →
        Splitter.reply st env_contract msg = .error (.std err))) := by
  refine ⟨?_, fun hid => ⟨?_, ?_⟩⟩
  · intro hid
    simp [Splitter.reply, hid]
  · intro addr hres
    simp [Splitter.reply, hid, hres]
  · intro err hres
    simp [Splitter.reply, hid, hres]

/-- Witness for C7: id 2 is rejected; id 1 with a successful payload carrying
child address "child" emits the two wiring messages; id 1 with a failed
payload is wrapped. -/
theorem reply_handler_spec_witness :
    Splitter.reply ⟨⟨"alice", true⟩, []⟩ "self" ⟨2, .ok "child"⟩ =
      .error .instantiateError ∧
    Splitter.reply ⟨⟨"alice", true⟩, []⟩ "self" ⟨1, .ok "child"⟩ =
      .ok (⟨⟨"alice", true⟩, []⟩,
        ⟨[Msg.updateContractMetadata (some "child") (some "self") (some "self"),
          Msg.wasmUpdateAdmin "child" "alice"], []⟩) ∧
    Splitter.reply ⟨⟨"alice", true⟩, []⟩ "self" ⟨1, .error "boom"⟩ =
      .error (.std "boom") := by
  refine ⟨?_, ?_, ?_⟩
  · exact (reply_handler_spec ⟨⟨"alice", true⟩, []⟩ "self" ⟨2, .ok "child"⟩).1
      (by decide)
  · exact ((reply_handler_spec ⟨⟨"alice", true⟩, []⟩ "self" ⟨1, .ok "child"⟩).2
      rfl).1 "child" rfl
  · exact ((reply_handler_spec ⟨⟨"alice", true⟩, []⟩ "self" ⟨1, .error "boom"⟩).2
      rfl).2 "boom" rfl

/-- C10: `query_shares` validates its `start_after` cursor with `.unwrap()`:
a cursor rejected by the address-validation collaborator makes the query
panic (modelled by `none`: the function is not total there) instead of
returning an error value, while an accepted cursor or an absent cursor
always produces a result page. -/
theorem query_shares_cursor_panic (api : Api) (m : SharesMap) (s : String)
    (limit : Option Nat) :
    (api s = none → query_shares api m (some s) limit = none) ∧
    (∀ r, api s = some r → (query_shares api m (some s) limit).isSome = true) ∧
    (query_shares api m none limit).isSome = true := by
  refine ⟨?_, ?_, ?_⟩
  · intro h
    simp [query_shares, h]
  · intro r h
    simp [query_shares, h]
  · simp [query_shares]

/-- Witness for C10: the rejected cursor "bad" panics; the accepted cursor
"bob" returns a page. -/
theorem query_shares_cursor_panic_witness :
    query_shares apiReject [("bob", ⟨"bob", Decimal.one⟩)] (some "bad") none =
      none ∧
    (query_shares apiReject [("bob", ⟨"bob", Decimal.one⟩)] (some "bob")
      none).isSome = true := by
  refine ⟨?_, ?_⟩
  · exact (query_shares_cursor_panic apiReject [("bob", ⟨"bob", Decimal.one⟩)]
      "bad" none).1 (by decide)
  · exact (query_shares_cursor_panic apiReject [("bob", ⟨"bob", Decimal.one⟩)]
      "bob" none).2.1 "bob" (by decide)

theorem splitter_instantiate_ok_elim (api : Api) (info : MessageInfo)
    (msg : InstantiateMsg) (st : State) (resp : Response)
    (h : Splitter.instantiate api info msg = .ok (st, resp)) :
    st.config = ⟨info.sender, msg.mutable⟩ ∧
    saveShares api sharesClear msg.shares = .ok st.shares ∧
    resp = ⟨[], [("admin", info.sender)]⟩ := by
  unfold Splitter.instantiate at h
  cases hchk : check_share_percentages msg.shares with
  | error e => rw [hchk] at h; cases h
  | ok u =>
    cases u
    rw [hchk] at h
    cases hsv : saveShares api sharesClear msg.shares with
    | error e => rw [hsv] at h; cases h
    | ok m =>
      rw [hsv] at h
      cases h
      exact ⟨rfl, rfl, rfl⟩

theorem factory_instantiate_ok_elim (api : Api) (info : MessageInfo)
    (msg : InstantiateMsg) (st : State) (resp : Response)
    (h : Factory.instantiate api info msg = .ok (st, resp)) :
    st.config = ⟨info.sender, msg.mutable⟩ ∧
    saveShares api sharesClear msg.shares = .ok st.shares ∧
    resp = ⟨[Msg.updateContractMetadata none (some info.sender) (some info.sender)],
      [("admin", info.sender)]⟩ := by
  unfold Factory.instantiate at h
  cases hchk : check_share_percentages msg.shares with
  | error e => rw [hchk] at h; cases h
  | ok u =>
    cases u
    rw [hchk] at h
    cases hsv : saveShares api sharesClear msg.shares with
    | error e => rw [hsv] at h; cases h
    | ok m =>
      rw [hsv] at h
      cases h
      exact ⟨rfl, rfl, rfl⟩

/-- C9 counterexample: a concrete successful splitter instantiation (caller
"alice", one share "bob" at 100%) persists config and shares but answers
with an empty message list: no metadata-registration effect naming the
caller as owner and rewards recipient is emitted, so the claim fails for
the splitter (and the identical reward-manager) variant. -/
theorem splitter_instantiate_no_metadata_msg :
    Splitter.instantiate apiId ⟨"alice", []⟩ ⟨true, [⟨"bob", Decimal.one⟩]⟩ =
      .ok (⟨⟨"alice", true⟩, [("bob", ⟨"bob", Decimal.one⟩)]⟩,
        ⟨[], [("admin", "alice")]⟩) ∧
    (⟨[], [("admin", "alice")]⟩ : Response).messages = [] := by
  exact ⟨by decide, rfl⟩

/-- C9 (amended): every successful instantiation persists
`Config {admin := caller, mutable := flag}` and the validated initial share
set; the factory variant additionally emits the metadata-registration
message naming the caller as both owner address and rewards recipient,
while the splitter and reward-manager variants emit no message at all. -/
theorem instantiate_persists_config_and_shares (api : Api) (info : MessageInfo)
    (msg : InstantiateMsg) (st : State) (resp : Response) :
    (Factory.instantiate api info msg = .ok (st, resp) →
      st.config = ⟨info.sender, msg.mutable⟩ ∧
      saveShares api sharesClear msg.shares = .ok st.shares ∧
      resp.messages =
        [Msg.updateContractMetadata none (some info.sender) (some info.sender)]) ∧
    (Splitter.instantiate api info msg = .ok (st, resp) →
      st.config = ⟨info.sender, msg.mutable⟩ ∧
      saveShares api sharesClear msg.shares = .ok st.shares ∧
      resp.messages = []) ∧
    (RewardManager.instantiate api info msg = .ok (st, resp) →
      st.config = ⟨info.sender, msg.mutable⟩ ∧
      saveShares api sharesClear msg.shares = .ok st.shares ∧
      resp.messages = []) := by
  refine ⟨?_, ?_, ?_⟩
  · intro h
    obtain ⟨h1, h2, h3⟩ := factory_instantiate_ok_elim api info msg st resp h
    exact ⟨h1, h2, by rw [h3]⟩
  · intro h
    obtain ⟨h1, h2, h3⟩ := splitter_instantiate_ok_elim api info msg st resp h
    exact ⟨h1, h2, by rw [h3]⟩
  · intro h
    obtain ⟨h1, h2, h3⟩ := splitter_instantiate_ok_elim api info msg st resp h
    exact ⟨h1, h2, by rw [h3]⟩

/-- Witness for C9 (amended): evaluating the factory instantiation at a
concrete input and reading off the persisted config and the emitted
metadata-registration message. -/
theorem instantiate_persists_config_and_shares_witness :
    (⟨⟨"alice", true⟩, [("bob", ⟨"bob", Decimal.one⟩)]⟩ : State).config =
      ⟨"alice", true⟩ ∧
    (⟨[Msg.updateContractMetadata none (some "alice") (some "alice")],
      [("admin", "alice")]⟩ : Response).messages =
      [Msg.updateContractMetadata none (some "alice") (some "alice")] := by
  have h := (instantiate_persists_config_and_shares apiId ⟨"alice", []⟩
    ⟨true, [⟨"bob", Decimal.one⟩]⟩
    ⟨⟨"alice", true⟩, [("bob", ⟨"bob", Decimal.one⟩)]⟩
    ⟨[Msg.updateContractMetadata none (some "alice") (some "alice")],
      [("admin", "alice")]⟩).1 (by decide)
  exact ⟨h.1, h.2.2⟩

/-- A concrete deployment host for witnesses: canonicalization, code lookup,
checksum lookup, derivation and humanization all succeed. -/
def hostDemo : WasmHost :=
  ⟨fun _ => some [1], fun _ => some 7, fun _ => some [2],
   fun checksum creator salt => some (checksum ++ creator ++ salt),
   fun _ => some "child"⟩

/-- C6: the factory's deterministic child deployment derives the child
address by the pure derivation function applied to (own code checksum, own
canonicalized address as creator, the init payload bytes verbatim as salt)
and, when derivation succeeds, emits exactly three effects in order:
`Instantiate2` with the factory as the child's admin, the metadata update
setting the child's owner and rewards addresses, and the admin transfer to
the original caller; when the address derivation fails the request errors
and no effect at all is emitted. -/
theorem add_custom_contract_deterministic_spec (host : WasmHost) (st : State)
    (env_contract : Addr) (info : MessageInfo) (code_id : Nat) (msg : Binary)
    (creator checksum canonical : Binary) (cid : Nat) (address : Addr)
    (hmut : st.config.mutable = true) (hadm : info.sender = st.config.admin)
    (hcre : host.addr_canonicalize env_contract = some creator)
    (hcid : host.contract_code_id env_contract = some cid)
    (hsum : host.code_checksum cid = some checksum) :
    (host.instantiate2_address checksum creator msg = some canonical →
      host.addr_humanize canonical = some address →
      Factory.execute_add_custom_contract host st env_contract info code_id msg =
        .ok (st, ⟨[
          Msg.wasmInstantiate2 (some env_contract) code_id "" msg info.funds msg,
          Msg.wasmExecuteUpdateRewardMetadata address (some env_contract)
            (some env_contract) [],
          Msg.wasmUpdateAdmin address info.sender], []⟩)) ∧
    (host.instantiate2_address checksum creator msg = none →
      Factory.execute_add_custom_contract host st env_contract info code_id msg =
        .error (.std "instantiate2_address failed")) := by
  constructor
  · intro hi2 hhum
    simp [Factory.execute_add_custom_contract, hmut, hadm, hcre, hcid, hsum,
      hi2, hhum]
  · intro hi2
    simp [Factory.execute_add_custom_contract, hmut, hadm, hcre, hcid, hsum, hi2]

/-- Witness for C6: with the concrete host `hostDemo`, admin "alice" deploys
code 9 with payload [5]; the three effects appear in order with the derived
child address. -/
theorem add_custom_contract_deterministic_spec_witness :
    Factory.execute_add_custom_contract hostDemo ⟨⟨"alice", true⟩, []⟩ "self"
      ⟨"alice", []⟩ 9 [5] =
      .ok (⟨⟨"alice", true⟩, []⟩, ⟨[
        Msg.wasmInstantiate2 (some "self") 9 "" [5] [] [5],
        Msg.wasmExecuteUpdateRewardMetadata "child" (some "self") (some "self") [],
        Msg.wasmUpdateAdmin "child" "alice"], []⟩) := by
  exact (add_custom_contract_deterministic_spec hostDemo ⟨⟨"alice", true⟩, []⟩
    "self" ⟨"alice", []⟩ 9 [5] [1] [2] ([2] ++ [1] ++ [5]) 7 "child" rfl rfl
    rfl rfl rfl).1 rfl rfl

theorem charsLt_irrefl (l : List Char) : charsLt l l = false := by
  induction l with
  | nil => rfl
  | cons a as ih => simp [charsLt, ih]

theorem charsLt_asymm (a b : List Char) (h : charsLt a b = true) :
    charsLt b a = false := by
  induction a generalizing b with
  | nil =>
    cases b with
    | nil => simp [charsLt] at h
    | cons y ys => rfl
  | cons x xs ih =>
    cases b with
    | nil => simp [charsLt] at h
    | cons y ys =>
      simp only [charsLt] at h ⊢
      by_cases h1 : x.toNat < y.toNat
      · rw [if_neg (Nat.lt_asymm h1), if_pos h1]
      · rw [if_neg h1] at h
        by_cases h2 : y.toNat < x.toNat
        · rw [if_pos h2] at h; cases h
        · rw [if_neg h2] at h
          rw [if_neg h2, if_neg h1]
          exact ih ys h

theorem charsLt_trans (a b c : List Char) (hab : charsLt a b = true)
    (hbc : charsLt b c = true) : charsLt a c = true := by
  induction a generalizing b c with
  | nil =>
    cases c with
    | nil =>
      cases b with
      | nil => simp [charsLt] at hab
      | cons y ys => simp [charsLt] at hbc
    | cons z zs => rfl
  | cons x xs ih =>
    cases b with
    | nil => simp [charsLt] at hab
    | cons y ys =>
      cases c with
      | nil => simp [charsLt] at hbc
      | cons z zs =>
        simp only [charsLt] at hab hbc ⊢
        by_cases h1 : x.toNat < y.toNat
        · by_cases h2 : y.toNat < z.toNat
          · rw [if_pos (Nat.lt_trans h1 h2)]
          · rw [if_neg h2] at hbc
            by_cases h3 : z.toNat < y.toNat
            · rw [if_pos h3] at hbc; cases hbc
            · have hyz : y.toNat = z.toNat := Nat.le_antisymm
                (Nat.le_of_not_lt h3) (Nat.le_of_not_lt h2)
              rw [if_pos (hyz ▸ h1)]
        · rw [if_neg h1] at hab
          by_cases h4 : y.toNat < x.toNat
          · rw [if_pos h4] at hab; cases hab
          · rw [if_neg h4] at hab
            have hxy : x.toNat = y.toNat := Nat.le_antisymm
              (Nat.le_of_not_lt h4) (Nat.le_of_not_lt h1)
            by_cases h2 : y.toNat < z.toNat
            · rw [if_pos (hxy ▸ h2)]
            · rw [if_neg h2] at hbc
              by_cases h3 : z.toNat < y.toNat
              · rw [if_pos h3] at hbc; cases hbc
              · rw [if_neg h3] at hbc
                have hyz : y.toNat = z.toNat := Nat.le_antisymm
                  (Nat.le_of_not_lt h3) (Nat.le_of_not_lt h2)
                rw [if_neg (by rw [hxy, hyz]; exact Nat.lt_irrefl _),
                  if_neg (by rw [hxy, hyz]; exact Nat.lt_irrefl _)]
                exact ih ys zs hab hbc

theorem charsLt_eq_of_not_lt (a b : List Char) (hab : charsLt a b = false)
    (hba : charsLt b a = false) : a = b := by
  induction a generalizing b with
  | nil =>
    cases b with
    | nil => rfl
    | cons y ys => simp [charsLt] at hab
  | cons x xs ih =>
    cases b with
    | nil => simp [charsLt] at hba
    | cons y ys =>
      simp only [charsLt] at hab hba
      by_cases h1 : x.toNat < y.toNat
      · rw [if_pos h1] at hab; cases hab
      · rw [if_neg h1] at hab
        by_cases h2 : y.toNat < x.toNat
        · rw [if_pos h2] at hba; cases hba
        · rw [if_neg h2] at hab
          rw [if_neg h2, if_neg h1] at hba
          have hxy : x = y := Char.eq_of_val_eq (UInt32.toNat.inj
            (Nat.le_antisymm (Nat.le_of_not_lt h2) (Nat.le_of_not_lt h1)))
          rw [hxy, ih ys hab hba]

theorem addrLt_irrefl (a : Addr) : addrLt a a = false := charsLt_irrefl a.data

theorem addrLt_asymm {a b : Addr} (h : addrLt a b = true) : addrLt b a = false :=
  charsLt_asymm a.data b.data h

theorem addrLt_trans {a b c : Addr} (hab : addrLt a b = true)
    (hbc : addrLt b c = true) : addrLt a c = true :=
  charsLt_trans a.data b.data c.data hab hbc

theorem addrLt_eq_of_not_lt {a b : Addr} (hab : addrLt a b = false)
    (hba : addrLt b a = false) : a = b :=
  String.ext (charsLt_eq_of_not_lt a.data b.data hab hba)

theorem addrLt_total {a b : Addr} (h1 : addrLt a b = false) (h2 : a ≠ b) :
    addrLt b a = true := by
  cases hba : addrLt b a with
  | true => rfl
  | false => exact absurd (addrLt_eq_of_not_lt h1 hba) h2

theorem mem_sharesSave_sub (m : SharesMap) (k : Addr) (v : Share)
    (p : Addr × Share) (hp : p ∈ sharesSave m k v) : p = (k, v) ∨ p ∈ m := by
  induction m with
  | nil => simpa [sharesSave] using hp
  | cons q rest ih =>
    obtain ⟨k', v'⟩ := q
    simp only [sharesSave] at hp
    by_cases h1 : addrLt k k'
    · rw [if_pos h1] at hp
      rcases List.mem_cons.1 hp with rfl | hmem
      · exact Or.inl rfl
      · exact Or.inr hmem
    · rw [if_neg h1] at hp
      by_cases h2 : k = k'
      · rw [if_pos h2] at hp
        rcases List.mem_cons.1 hp with rfl | hmem
        · exact Or.inl rfl
        · exact Or.inr (List.mem_cons_of_mem _ hmem)
      · rw [if_neg h2] at hp
        rcases List.mem_cons.1 hp with rfl | hmem
        · exact Or.inr (List.mem_cons_self _ _)
        · rcases ih hmem with h | h
          · exact Or.inl h
          · exact Or.inr (List.mem_cons_of_mem _ h)

theorem sorted_sharesSave (m : SharesMap) (k : Addr) (v : Share)
    (hs : SortedShares m) : SortedShares (sharesSave m k v) := by
  induction m with
  | nil =>
    simp only [sharesSave, SortedShares]
    exact List.pairwise_singleton _ _
  | cons q rest ih =>
    obtain ⟨k', v'⟩ := q
    rw [SortedShares] at hs
    obtain ⟨hhead, htail⟩ := List.pairwise_cons.1 hs
    simp only [sharesSave]
    by_cases h1 : addrLt k k'
    · rw [if_pos h1]
      rw [SortedShares]
      refine List.pairwise_cons.2 ⟨?_, hs⟩
      intro p hp
      rcases List.mem_cons.1 hp with rfl | hmem
      · exact h1
      · exact addrLt_trans h1 (hhead p hmem)
    · rw [if_neg h1]
      by_cases h2 : k = k'
      · rw [if_pos h2]
        rw [SortedShares]
        refine List.pairwise_cons.2 ⟨?_, htail⟩
        intro p hp
        rw [h2]
        exact hhead p hp
      · rw [if_neg h2]
        rw [SortedShares]
        refine List.pairwise_cons.2 ⟨?_, ih htail⟩
        intro p hp
        rcases mem_sharesSave_sub rest k v p hp with rfl | hmem
        · exact addrLt_total (by simpa using h1) h2
        · exact hhead p hmem

theorem keysMatch_sharesSave (m : SharesMap) (k : Addr) (v : Share)
    (hm : KeysMatch m) (hv : v.recipient = k) : KeysMatch (sharesSave m k v) := by
  intro p hp
  rcases mem_sharesSave_sub m k v p hp with rfl | hmem
  · exact hv
  · exact hm p hmem

theorem mem_keysOf_sharesSave (m : SharesMap) (k : Addr) (v : Share) (a : Addr) :
    a ∈ keysOf (sharesSave m k v) ↔ a = k ∨ a ∈ keysOf m := by
  induction m with
  | nil => simp [sharesSave, keysOf]
  | cons q rest ih =>
    obtain ⟨k', v'⟩ := q
    simp only [sharesSave]
    by_cases h1 : addrLt k k'
    · rw [if_pos h1]
      simp [keysOf]
    · rw [if_neg h1]
      by_cases h2 : k = k'
      · rw [if_pos h2]
        subst h2
        simp [keysOf]
      · rw [if_neg h2]
        simp only [keysOf, List.map_cons, List.mem_cons] at ih ⊢
        rw [ih]
        tauto

theorem sumShares_nil : sumShares ([] : SharesMap) = 0 := rfl

theorem sumShares_cons (p : Addr × Share) (m : SharesMap) :
    sumShares (p :: m) = p.2.percentage + sumShares m := by
  simp [sumShares]

theorem sumShares_sharesSave_notmem (m : SharesMap) (k : Addr) (v : Share)
    (h : k ∉ keysOf m) :
    sumShares (sharesSave m k v) = v.percentage + sumShares m := by
  induction m with
  | nil => simp [sharesSave, sumShares]
  | cons q rest ih =>
    obtain ⟨k', v'⟩ := q
    simp only [keysOf, List.map_cons, List.mem_cons] at h
    push_neg at h
    obtain ⟨hk1, hk2⟩ := h
    simp only [sharesSave]
    by_cases h1 : addrLt k k'
    · rw [if_pos h1, sumShares_cons]
    · rw [if_neg h1, if_neg hk1, sumShares_cons, sumShares_cons,
        ih hk2]
      show v'.percentage + (v.percentage + sumShares rest) =
        v.percentage + (v'.percentage + sumShares rest)
      ring

theorem div_add_div_le (a b c : Nat) : a / c + b / c ≤ (a + b) / c := by
  rcases Nat.eq_zero_or_pos c with rfl | hc
  · simp
  · rw [Nat.le_div_iff_mul_le hc, Nat.add_mul]
    exact Nat.add_le_add (Nat.div_mul_le_self a c) (Nat.div_mul_le_self b c)

theorem mapsum_div_le (b E : Nat) (ps : List Nat) :
    (ps.map (fun p => b * p / E)).sum ≤ b * ps.sum / E := by
  induction ps with
  | nil => simp
  | cons p rest ih =>
    simp only [List.map_cons, List.sum_cons]
    calc
      b * p / E + (rest.map (fun p => b * p / E)).sum ≤
          b * p / E + b * rest.sum / E := Nat.add_le_add_left ih _
      _ ≤ (b * p + b * rest.sum) / E := div_add_div_le _ _ _
      _ = b * (p + rest.sum) / E := by rw [Nat.mul_add]

theorem Decimal.one_pos : 0 < Decimal.one := by decide

/-- C5: for a committed share store (keys ascending, recipients matching
keys, stored percentages summing to at most one) and any native balance, an
admin-invoked `execute_distribute_native_tokens` succeeds without state
change and emits exactly one `BankMsg::Send` per stored share — nothing
else, so no rounding remainder is redistributed — in ascending address-key
order, each with amount `floor(balance * percentage)` in 18-digit
fixed-point arithmetic; the emitted amounts sum to at most the balance. -/
theorem distribute_native_tokens_spec (st : State) (info : MessageInfo)
    (balance : Nat) (hadm : info.sender = st.config.admin)
    (hsorted : SortedShares st.shares) (hkeys : KeysMatch st.shares)
    (hsum : sumShares st.shares ≤ Decimal.one) :
    Splitter.execute_distribute_native_tokens st info balance =
      .ok (st, ⟨st.shares.map (fun p =>
        Msg.bankSend p.2.recipient (balance * p.2.percentage / Decimal.one)
          "aconst"), []⟩) ∧
    (st.shares.map (fun p => p.2.recipient)).Pairwise
      (fun a b => addrLt a b = true) ∧
    (st.shares.map (fun p => balance * p.2.percentage / Decimal.one)).sum ≤
      balance := by
  refine ⟨?_, ?_, ?_⟩
  · simp [Splitter.execute_distribute_native_tokens, hadm]
  · refine List.pairwise_map.2 ?_
    refine List.Pairwise.imp_of_mem ?_ hsorted
    intro p q hp hq hrel
    rw [hkeys p hp, hkeys q hq]
    exact hrel
  · have h1 : st.shares.map (fun p => balance * p.2.percentage / Decimal.one) =
        (st.shares.map (fun p => p.2.percentage)).map
          (fun x => balance * x / Decimal.one) := by
      rw [List.map_map]
      rfl
    rw [h1]
    calc ((st.shares.map (fun p => p.2.percentage)).map
          (fun x => balance * x / Decimal.one)).sum ≤
        balance * (st.shares.map (fun p => p.2.percentage)).sum / Decimal.one :=
          mapsum_div_le _ _ _
      _ ≤ balance * Decimal.one / Decimal.one :=
          Nat.div_le_div_right (Nat.mul_le_mul_left _ hsum)
      _ = balance := Nat.mul_div_cancel balance Decimal.one_pos

/-- Witness for C5: balance 1000001 split 60% / 40% between "an" and "cy"
pays floor amounts 600000 and 400000, total 1000000 ≤ 1000001 (the single
remainder atom stays in the contract). -/
theorem distribute_native_tokens_spec_witness :
    Splitter.execute_distribute_native_tokens
      ⟨⟨"alice", true⟩, [("an", ⟨"an", 6 * 10 ^ 17⟩), ("cy", ⟨"cy", 4 * 10 ^ 17⟩)]⟩
      ⟨"alice", []⟩ 1000001 =
      .ok (⟨⟨"alice", true⟩,
          [("an", ⟨"an", 6 * 10 ^ 17⟩), ("cy", ⟨"cy", 4 * 10 ^ 17⟩)]⟩,
        ⟨[Msg.bankSend "an" 600000 "aconst", Msg.bankSend "cy" 400000 "aconst"],
          []⟩) ∧
    600000 + 400000 ≤ 1000001 := by
  have h := distribute_native_tokens_spec
    ⟨⟨"alice", true⟩, [("an", ⟨"an", 6 * 10 ^ 17⟩), ("cy", ⟨"cy", 4 * 10 ^ 17⟩)]⟩
    ⟨"alice", []⟩ 1000001 rfl (by unfold SortedShares; decide)
    (by unfold KeysMatch; decide) (by decide)
  exact ⟨h.1.trans (by decide), by decide⟩

theorem page_shares_wf (m sub : SharesMap) (hsorted : SortedShares m)
    (hkeys : KeysMatch m) (hsub : List.Sublist sub m) :
    (sub.map (fun p => p.2)).Pairwise
      (fun a b => addrLt a.recipient b.recipient = true) := by
  refine List.pairwise_map.2 ?_
  have hs : sub.Pairwise (fun p q => addrLt p.1 q.1 = true) :=
    List.Pairwise.sublist hsub hsorted
  refine List.Pairwise.imp_of_mem ?_ hs
  intro p q hp hq hrel
  rw [hkeys p (List.Sublist.subset hsub hp), hkeys q (List.Sublist.subset hsub hq)]
  exact hrel

/-- C8: `query_shares` pages the store in ascending address-key order with
exclusive-start cursor semantics and page size at most the supplied limit
(10 by default): every returned page has length at most the limit and lists
shares with strictly ascending recipients; and for any store with at least
four shares, a first query with no cursor and limit 2 returns the first two
shares while a second query cursored at the last returned address and limit
2 returns exactly the next two — no overlap, no gap. -/
theorem query_shares_pagination_spec (api : Api) (m : SharesMap)
    (hsorted : SortedShares m) (hkeys : KeysMatch m)
    (hvalid : ∀ p ∈ m, api p.1 = some p.1) :
    (∀ c lim out, query_shares api m c lim = some out →
      out.length ≤ lim.getD 10 ∧
      out.Pairwise (fun a b => addrLt a.recipient b.recipient = true)) ∧
    (∀ p0 p1 p2 p3 rest, m = p0 :: p1 :: p2 :: p3 :: rest →
      query_shares api m none (some 2) = some [p0.2, p1.2] ∧
      query_shares api m (some p1.2.recipient) (some 2) = some [p2.2, p3.2]) := by
  constructor
  · intro c lim out hq
    match c with
    | none =>
      simp only [query_shares, Option.some.injEq] at hq
      subst hq
      refine ⟨?_, page_shares_wf m _ hsorted hkeys (List.take_sublist _ _)⟩
      rw [List.length_map, List.length_take]
      exact Nat.min_le_left _ _
    | some s =>
      simp only [query_shares] at hq
      cases hap : api s with
      | none => rw [hap] at hq; cases hq
      | some r =>
        rw [hap] at hq
        rw [Option.some.injEq] at hq
        subst hq
        refine ⟨?_, page_shares_wf m _ hsorted hkeys
          ((List.take_sublist _ _).trans (List.filter_sublist _))⟩
        rw [List.length_map, List.length_take]
        exact Nat.min_le_left _ _
  · intro p0 p1 p2 p3 rest hm
    subst hm
    rw [SortedShares] at hsorted
    obtain ⟨h0, hs1⟩ := List.pairwise_cons.1 hsorted
    obtain ⟨h1, hs2⟩ := List.pairwise_cons.1 hs1
    constructor
    · simp [query_shares]
    · have hrec : p1.2.recipient = p1.1 := hkeys p1 (by simp)
      have hap : api p1.1 = some p1.1 := hvalid p1 (by simp)
      have e0 : addrLt p1.1 p0.1 = false := addrLt_asymm (h0 p1 (by simp))
      have e1 : addrLt p1.1 p1.1 = false := addrLt_irrefl _
      have e2 : addrLt p1.1 p2.1 = true := h1 p2 (by simp)
      have e3 : addrLt p1.1 p3.1 = true := h1 p3 (by simp)
      simp [query_shares, hrec, hap, List.filter_cons, e0, e1, e2, e3]

/-- A concrete four-share store for the pagination witness. -/
def sharesDemo : SharesMap :=
  [("aa", ⟨"aa", 25 * 10 ^ 16⟩), ("bb", ⟨"bb", 25 * 10 ^ 16⟩),
   ("cc", ⟨"cc", 25 * 10 ^ 16⟩), ("dd", ⟨"dd", 25 * 10 ^ 16⟩)]

/-- Witness for C8: on a four-share store, page one (no cursor, limit 2) is
the first two shares, and cursoring at the second share's address returns
exactly the third and fourth. -/
theorem query_shares_pagination_spec_witness :
    query_shares apiId sharesDemo none (some 2) =
      some [⟨"aa", 25 * 10 ^ 16⟩, ⟨"bb", 25 * 10 ^ 16⟩] ∧
    query_shares apiId sharesDemo
      (some (Share.recipient ⟨"bb", 25 * 10 ^ 16⟩)) (some 2) =
      some [⟨"cc", 25 * 10 ^ 16⟩, ⟨"dd", 25 * 10 ^ 16⟩] := by
  exact (query_shares_pagination_spec apiId sharesDemo
    (by unfold SortedShares sharesDemo; decide)
    (by unfold KeysMatch sharesDemo; decide) (fun p _ => rfl)).2
    ("aa", ⟨"aa", 25 * 10 ^ 16⟩) ("bb", ⟨"bb", 25 * 10 ^ 16⟩)
    ("cc", ⟨"cc", 25 * 10 ^ 16⟩) ("dd", ⟨"dd", 25 * 10 ^ 16⟩) [] rfl

theorem update_shares_ok_elim (api : Api) (st : State) (info : MessageInfo)
    (L : List Share) (st' : State) (r : Response)
    (h : execute_update_shares api st info L = .ok (st', r)) :
    st'.config = st.config ∧ percentageSum L = Decimal.one ∧
    saveShares api sharesClear L = .ok st'.shares := by
  simp only [execute_update_shares] at h
  split at h
  · cases h
  · split at h
    · cases h
    · cases hchk : check_share_percentages L with
      | error e => rw [hchk] at h; cases h
      | ok u =>
        cases u
        rw [hchk] at h
        cases hsv : saveShares api sharesClear L with
        | error e => rw [hsv] at h; cases h
        | ok mm =>
          rw [hsv] at h
          cases h
          exact ⟨rfl, (check_ok_iff L).1 hchk, rfl⟩

theorem lock_ok_elim (st : State) (info : MessageInfo) (st' : State)
    (r : Response) (h : execute_lock_contract st info = .ok (st', r)) :
    st'.shares = st.shares := by
  simp only [execute_lock_contract] at h
  split at h
  · cases h
  · cases h; rfl

theorem add_custom_ok_elim (st : State) (env_contract : Addr)
    (info : MessageInfo) (code_id : Nat) (payload : Binary) (st' : State)
    (r : Response)
    (h : Splitter.execute_add_custom_contract st env_contract info code_id
      payload = .ok (st', r)) : st' = st := by
  simp only [Splitter.execute_add_custom_contract] at h
  split at h
  · cases h
  · split at h
    · cases h
    · cases h; rfl

theorem update_metadata_ok_elim (st : State) (info : MessageInfo)
    (address : String) (owner_address rewards_address : Option String)
    (st' : State) (r : Response)
    (h : Splitter.execute_update_custom_contract_reward_metadata st info address
      owner_address rewards_address = .ok (st', r)) : st' = st := by
  simp only [Splitter.execute_update_custom_contract_reward_metadata] at h
  split at h
  · cases h
  · split at h
    · cases h
    · cases h; rfl

theorem withdraw_ok_elim (st : State) (info : MessageInfo) (st' : State)
    (r : Response)
    (h : Splitter.execute_withdraw_rewards st info = .ok (st', r)) :
    st' = st := by
  simp only [Splitter.execute_withdraw_rewards] at h
  split at h
  · cases h
  · cases h; rfl

theorem distribute_ok_elim (st : State) (info : MessageInfo) (balance : Nat)
    (st' : State) (r : Response)
    (h : Splitter.execute_distribute_native_tokens st info balance =
      .ok (st', r)) : st' = st := by
  simp only [Splitter.execute_distribute_native_tokens] at h
  split at h
  · cases h
  · cases h; rfl

theorem reply_ok_elim (st : State) (env_contract : Addr)
    (msg : Splitter.ReplyMsg) (st' : State) (r : Response)
    (h : Splitter.reply st env_contract msg = .ok (st', r)) : st' = st := by
  simp only [Splitter.reply] at h
  split at h
  · cases h
  · cases hres : msg.result with
    | ok a => rw [hres] at h; cases h; rfl
    | error e => rw [hres] at h; cases h

theorem Splitter.instantiate_ok_sum (api : Api) (info : MessageInfo)
    (msg : InstantiateMsg) (out : State × Response)
    (h : Splitter.instantiate api info msg = .ok out) :
    percentageSum msg.shares = Decimal.one := by
  unfold Splitter.instantiate at h
  cases hchk : check_share_percentages msg.shares with
  | error e => rw [hchk] at h; cases h
  | ok u => cases u; exact (check_ok_iff _).1 hchk

theorem saveShares_sum_nodup (api : Api) (hapi : ValidIdApi api) :
    ∀ (L : List Share) (m m' : SharesMap),
      (L.map (fun sh => sh.recipient)).Nodup →
      (∀ sh ∈ L, sh.recipient ∉ keysOf m) →
      saveShares api m L = .ok m' →
      sumShares m' = sumShares m + percentageSum L := by
  intro L
  induction L with
  | nil =>
    intro m m' _ _ h
    simp only [saveShares] at h
    cases h
    simp [percentageSum]
  | cons sh rest ih =>
    intro m m' hnodup hfresh h
    rw [saveShares] at h
    cases hval : api sh.recipient with
    | none => rw [hval] at h; cases h
    | some rcp =>
      rw [hval] at h
      have hrcp : rcp = sh.recipient := hapi _ _ hval
      subst hrcp
      rw [List.map_cons, List.nodup_cons] at hnodup
      obtain ⟨hnotin, hnodup'⟩ := hnodup
      have hfresh' : ∀ x ∈ rest,
          x.recipient ∉ keysOf (sharesSave m sh.recipient sh) := by
        intro x hx hmem
        rcases (mem_keysOf_sharesSave m sh.recipient sh x.recipient).1 hmem with
          heq | hmem'
        · exact hnotin (heq ▸ List.mem_map_of_mem _ hx)
        · exact hfresh x (List.mem_cons_of_mem _ hx) hmem'
      rw [ih (sharesSave m sh.recipient sh) m' hnodup' hfresh' h,
        sumShares_sharesSave_notmem m sh.recipient sh
          (hfresh sh (List.mem_cons_self _ _)),
        percentageSum_cons]
      ring

/-- The states of the splitter reachable after a successful instantiation
followed by any sequence of successful operations, where every submitted
share list carries pairwise distinct recipients. -/
inductive Reachable (api : Api) : State → Prop where
  | init (info : MessageInfo) (msg : InstantiateMsg) (st : State) (r : Response) :
      (msg.shares.map (fun sh => sh.recipient)).Nodup →
      Splitter.instantiate api info msg = .ok (st, r) →
      Reachable api st
  | updateShares (st : State) (info : MessageInfo) (L : List Share)
      (st' : State) (r : Response) : Reachable api st →
      (L.map (fun sh => sh.recipient)).Nodup →
      execute_update_shares api st info L = .ok (st', r) →
      Reachable api st'
  | lockContract (st : State) (info : MessageInfo) (st' : State) (r : Response) :
      Reachable api st →
      execute_lock_contract st info = .ok (st', r) →
      Reachable api st'
  | addCustomContract (st : State) (env_contract : Addr) (info : MessageInfo)
      (code_id : Nat) (payload : Binary) (st' : State) (r : Response) :
      Reachable api st →
      Splitter.execute_add_custom_contract st env_contract info code_id payload =
        .ok (st', r) →
      Reachable api st'
  | updateMetadata (st : State) (info : MessageInfo) (address : String)
      (owner_address rewards_address : Option String) (st' : State) (r : Response) :
      Reachable api st →
      Splitter.execute_update_custom_contract_reward_metadata st info address
        owner_address rewards_address = .ok (st', r) →
      Reachable api st'
  | withdrawRewards (st : State) (info : MessageInfo) (st' : State) (r : Response) :
      Reachable api st →
      Splitter.execute_withdraw_rewards st info = .ok (st', r) →
      Reachable api st'
  | distributeNative (st : State) (info : MessageInfo) (balance : Nat)
      (st' : State) (r : Response) :
      Reachable api st →
      Splitter.execute_distribute_native_tokens st info balance = .ok (st', r) →
      Reachable api st'
  | replyCallback (st : State) (env_contract : Addr) (msg : Splitter.ReplyMsg)
      (st' : State) (r : Response) :
      Reachable api st →
      Splitter.reply st env_contract msg = .ok (st', r) →
      Reachable api st'

/-- C2 counterexample: from a well-formed state, an `UpdateShares` with the
duplicate list [("carol", 0.5), ("carol", 0.5)] passes the percentage check
(the list sums to one) and succeeds, but the second entry overwrites the
first under the same key, committing a stored share set whose percentages
sum to 0.5 ≠ 1: the claimed invariant fails for duplicate recipients. -/
theorem shares_invariant_duplicate_counterexample :
    execute_update_shares apiId
      ⟨⟨"alice", true⟩, [("bob", ⟨"bob", Decimal.one⟩)]⟩ ⟨"alice", []⟩
      [⟨"carol", 5 * 10 ^ 17⟩, ⟨"carol", 5 * 10 ^ 17⟩] =
      .ok (⟨⟨"alice", true⟩, [("carol", ⟨"carol", 5 * 10 ^ 17⟩)]⟩,
        Response.empty) ∧
    percentageSum [⟨"carol", 5 * 10 ^ 17⟩, ⟨"carol", 5 * 10 ^ 17⟩] =
      Decimal.one ∧
    sumShares [("carol", ⟨"carol", 5 * 10 ^ 17⟩)] ≠ Decimal.one ∧
    ([("carol", ⟨"carol", 5 * 10 ^ 17⟩)] : SharesMap) ≠ [] := by
  exact ⟨by decide, by decide, by decide, by decide⟩

/-- C2 (amended): in every state reachable through a successful
instantiation and any sequence of successful operations whose submitted
share lists have pairwise distinct recipients (under an address validator
that returns valid addresses unchanged), the stored share set is non-empty
and its stored percentages sum to exactly one; without the distinctness
restriction the invariant fails (see the duplicate counterexample). -/
theorem reachable_shares_sum_one (api : Api) (st : State)
    (hapi : ValidIdApi api) (h : Reachable api st) :
    sumShares st.shares = Decimal.one ∧ st.shares ≠ [] := by
  induction h with
  | init info msg st r hnodup hok =>
    obtain ⟨hcfg, hsv, hresp⟩ := splitter_instantiate_ok_elim api info msg st r hok
    have hsum := Splitter.instantiate_ok_sum api info msg _ hok
    have heq := saveShares_sum_nodup api hapi msg.shares sharesClear st.shares
      hnodup (by intro x hx hmem; simp [sharesClear, keysOf] at hmem) hsv
    have hone : sumShares st.shares = Decimal.one := by
      rw [heq, hsum]
      simp [sharesClear, sumShares]
    refine ⟨hone, ?_⟩
    intro hnil
    rw [hnil] at hone
    simp [sumShares] at hone
    exact (by decide : ¬ ((0 : Decimal) = Decimal.one)) hone
  | updateShares st info L st' r hre hnodup hok ih =>
    obtain ⟨hcfg, hsum, hsv⟩ := update_shares_ok_elim api st info L st' r hok
    have heq := saveShares_sum_nodup api hapi L sharesClear st'.shares
      hnodup (by intro x hx hmem; simp [sharesClear, keysOf] at hmem) hsv
    have hone : sumShares st'.shares = Decimal.one := by
      rw [heq, hsum]
      simp [sharesClear, sumShares]
    refine ⟨hone, ?_⟩
    intro hnil
    rw [hnil] at hone
    simp [sumShares] at hone
    exact (by decide : ¬ ((0 : Decimal) = Decimal.one)) hone
  | lockContract st info st' r hre hok ih =>
    rw [lock_ok_elim st info st' r hok]
    exact ih
  | addCustomContract st env_contract info code_id payload st' r hre hok ih =>
    rw [add_custom_ok_elim st env_contract info code_id payload st' r hok]
    exact ih
  | updateMetadata st info address owner_address rewards_address st' r hre hok ih =>
    rw [update_metadata_ok_elim st info address owner_address rewards_address
      st' r hok]
    exact ih
  | withdrawRewards st info st' r hre hok ih =>
    rw [withdraw_ok_elim st info st' r hok]
    exact ih
  | distributeNative st info balance st' r hre hok ih =>
    rw [distribute_ok_elim st info balance st' r hok]
    exact ih
  | replyCallback st env_contract msg st' r hre hok ih =>
    rw [reply_ok_elim st env_contract msg st' r hok]
    exact ih

/-- Witness for C2 (amended): the state reached by the concrete
instantiation with the single share ("bob", 1.0) satisfies the invariant. -/
theorem reachable_shares_sum_one_witness :
    sumShares [("bob", ⟨"bob", Decimal.one⟩)] = Decimal.one ∧
    ([("bob", ⟨"bob", Decimal.one⟩)] : SharesMap) ≠ [] := by
  exact reachable_shares_sum_one apiId
    ⟨⟨"alice", true⟩, [("bob", ⟨"bob", Decimal.one⟩)]⟩
    (fun s a ha => (Option.some.inj ha).symm)
    (Reachable.init ⟨"alice", []⟩ ⟨true, [⟨"bob", Decimal.one⟩]⟩ _
      ⟨[], [("admin", "alice")]⟩ (by decide) (by decide))
